import Mathlib

/-!
Shallow embedding of `tinyboot.py`, the two-pass bootstrapping interpreter
for an extremely minimal Forth-like language.

The program text is a `List Char` (Python string indexed by byte), Dataspace
(`memory`) is a `List Nat` (Python list of ints), and the data/return stacks
are `List Nat` with the head as the Python list tail (append/pop site).  Every
value the interpreter ever pushes on the data stack is a non-negative integer
(decimal literals, `ord` of an input byte, sums, xors with `0xffffffff`,
little-endian decodes, and dataspace labels), so `Nat` is faithful to the
Python `int` values that actually occur.

A raised Python exception (IndexError from string/list indexing, ValueError
from `int('')` or `chr` of an out-of-range value, KeyError from the dispatch
dict, failed assert, EOF on stdin) is modelled as `Except.error`; `sys.exit(0)`
is the distinguished halt result.  Python list slicing with the non-negative
bounds that occur here is `(List.drop s).take (e - s)`, and slice assignment
`memory[a:a+4] = repl` is `memory.take a ++ repl ++ memory.drop (a + 4)`
(Python clamps both bounds to the list length and never raises).
-/

namespace Tinyboot

/-- Errors: each constructor stands for one way the Python process dies. -/
inductive Err where
  | indexError
  | memoryIndexError
  | valueError
  | undefinedToken (tok : Char) (excerpt : List Char)
  | undefinedOpcode (tok : Char)
  | entryNotSet
  | stackUnderflow
  | inputExhausted
deriving DecidableEq, Repr

/-- Run-time dispatch table entries.  The Python code stores closures; the
closures that ever arise are the named built-in actions plus
`push_dataspace_label(n)` (capturing a dataspace length) and
`call_function(n)` (capturing a program offset), so a first-order tag is an
exact representation. -/
inductive Action where
  | eat_comment
  | write_out
  | read_byte
  | quit
  | add
  | bitwise_not
  | fetch
  | store
  | return_from
  | nop
  | push_literal
  | pushLabel (n : Nat)
  | callFunction (n : Nat)
deriving DecidableEq, Repr

/-- Python slice `l[s:e]` for the non-negative bounds used here. -/
def pySliceNat (l : List α) (s e : Nat) : List α :=
  (l.drop s).take (e - s)

/-- `eat_comment`: advance the cursor past the next `)`.  Running off the end
of the program text raises IndexError, exactly as `program[program_counter]`
does in Python. -/
def eat_comment (program : List Char) (pc : Nat) : Except Err Nat :=
  if h : pc < program.length then
    if program[pc] = ')' then .ok (pc + 1) else eat_comment program (pc + 1)
  else .error .indexError
termination_by program.length - pc

/-- `advance_past_whitespace`: skip spaces and newlines; indexing past the end
raises IndexError. -/
def advance_past_whitespace (program : List Char) (pc : Nat) : Except Err Nat :=
  if h : pc < program.length then
    if program[pc] = ' ' ∨ program[pc] = '\n' then
      advance_past_whitespace program (pc + 1)
    else .ok pc
  else .error .indexError
termination_by program.length - pc

/-- The digit-scanning loop of `read_number`: advance while the current byte is
an ASCII digit; indexing past the end raises IndexError. -/
def scan_digits (program : List Char) (pc : Nat) : Except Err Nat :=
  if h : pc < program.length then
    if '0' ≤ program[pc] ∧ program[pc] ≤ '9' then scan_digits program (pc + 1)
    else .ok pc
  else .error .indexError
termination_by program.length - pc

/-- Python `int` on a string of decimal digits. -/
def string_to_int (s : List Char) : Nat :=
  s.foldl (fun a c => 10 * a + (c.toNat - 48)) 0

/-- `read_number`: scan digits from the cursor and parse them in base 10,
returning the value and the new cursor.  Zero digits means `int('')`, a
ValueError. -/
def read_number (program : List Char) (pc : Nat) : Except Err (Nat × Nat) :=
  match scan_digits program pc with
  | .error e => .error e
  | .ok stop =>
    if stop = pc then .error .valueError
    else .ok (string_to_int (pySliceNat program pc stop), stop)

/-- `as_bytes`: little-endian 4-byte encoding of a number. -/
def as_bytes (num : Nat) : List Nat :=
  [num &&& 255, (num >>> 8) &&& 255, (num >>> 16) &&& 255, (num >>> 24) &&& 255]

/-- `decode`: little-endian decoding of `bytes[0] | bytes[1]<<8 | bytes[2]<<16
| bytes[3]<<24`; fewer than 4 bytes raises IndexError. -/
def decode (bs : List Nat) : Except Err Nat :=
  match bs[0]?, bs[1]?, bs[2]?, bs[3]? with
  | some b0, some b1, some b2, some b3 =>
      .ok (b0 ||| (b1 <<< 8) ||| (b2 <<< 16) ||| (b3 <<< 24))
  | _, _, _, _ => .error .memoryIndexError

/-- The list comprehension of `write_out`: `[chr(memory[ii]) for ii in
range(address, address + count)]`.  Each index past the end of memory raises
IndexError, and `chr` of a value outside 0..255 raises ValueError, before any
byte is emitted. -/
def write_range (memory : List Nat) (address count : Nat) : Except Err (List Nat) :=
  match count with
  | 0 => .ok []
  | c + 1 =>
    match memory[address]? with
    | none => .error .memoryIndexError
    | some b =>
      if b < 256 then
        match write_range memory (address + 1) c with
        | .error e => .error e
        | .ok rest => .ok (b :: rest)
      else .error .valueError

/-- Compile-pass state: the shared program text and program counter, the
dataspace `memory`, the optional `start_address`, and the run-time dispatch
table being extended (an association list whose head is the most recent
binding, matching dict-overwrite lookup). -/
structure CState where
  program : List Char
  pc : Nat
  memory : List Nat
  start_address : Option Nat
  run_time_dispatch : List (Char × Action)
deriving DecidableEq, Repr

/-- One iteration of the `tbfcompile` loop: read the byte at the cursor,
advance past it, then dispatch on the compile-time table, fall through to a
silent skip for known run-time tokens, and fail with the Python assert message
data (the token and `program[max(0, pc - 10):pc]`) otherwise. -/
def compileStep (s : CState) : Except Err CState :=
  match s.program[s.pc]? with
  | none => .error .indexError
  | some byte =>
    if byte = '(' then
      match eat_comment s.program (s.pc + 1) with
      | .error e => .error e
      | .ok pc2 => .ok { s with pc := pc2 }
    else if byte = 'v' then
      match advance_past_whitespace s.program (s.pc + 1) with
      | .error e => .error e
      | .ok wpc =>
        match s.program[wpc]? with
        | none => .error .indexError
        | some name =>
          .ok { s with
                  pc := wpc + 1,
                  run_time_dispatch :=
                    (name, Action.pushLabel s.memory.length) :: s.run_time_dispatch }
    else if byte = ':' then
      match advance_past_whitespace s.program (s.pc + 1) with
      | .error e => .error e
      | .ok wpc =>
        match s.program[wpc]? with
        | none => .error .indexError
        | some name =>
          .ok { s with
                  pc := wpc + 1,
                  run_time_dispatch :=
                    (name, Action.callFunction (wpc + 1)) :: s.run_time_dispatch }
    else if byte = 'b' then
      match advance_past_whitespace s.program (s.pc + 1) with
      | .error e => .error e
      | .ok wpc =>
        match read_number s.program wpc with
        | .error e => .error e
        | .ok (n, pc2) => .ok { s with pc := pc2, memory := s.memory ++ [n] }
    else if byte = '#' then
      match advance_past_whitespace s.program (s.pc + 1) with
      | .error e => .error e
      | .ok wpc =>
        match read_number s.program wpc with
        | .error e => .error e
        | .ok (n, pc2) => .ok { s with pc := pc2, memory := s.memory ++ as_bytes n }
    else if byte = '^' then
      .ok { s with pc := s.pc + 1, start_address := some (s.pc + 1) }
    else if byte = ' ' ∨ byte = '\n' then
      .ok { s with pc := s.pc + 1 }
    else if (s.run_time_dispatch.lookup byte).isSome then
      .ok { s with pc := s.pc + 1 }
    else
      .error (.undefinedToken byte (pySliceNat s.program (s.pc + 1 - 10) (s.pc + 1)))

theorem eat_comment_ok_lt (program : List Char) (pc q : Nat)
    (h : eat_comment program pc = .ok q) : pc < q := by
  induction pc using eat_comment.induct program with
  | case1 pc hlt hc =>
      rw [eat_comment, dif_pos hlt, if_pos hc] at h
      cases h
      omega
  | case2 pc hlt hc ih =>
      rw [eat_comment, dif_pos hlt, if_neg hc] at h
      have := ih h
      omega
  | case3 pc hlt =>
      rw [eat_comment, dif_neg hlt] at h
      cases h

theorem advance_past_whitespace_ok_le (program : List Char) (pc q : Nat)
    (h : advance_past_whitespace program pc = .ok q) : pc ≤ q := by
  induction pc using advance_past_whitespace.induct program with
  | case1 pc hlt hc ih =>
      rw [advance_past_whitespace, dif_pos hlt, if_pos hc] at h
      have := ih h
      omega
  | case2 pc hlt hc =>
      rw [advance_past_whitespace, dif_pos hlt, if_neg hc] at h
      cases h
      omega
  | case3 pc hlt =>
      rw [advance_past_whitespace, dif_neg hlt] at h
      cases h

theorem scan_digits_ok_le (program : List Char) (pc q : Nat)
    (h : scan_digits program pc = .ok q) : pc ≤ q := by
  induction pc using scan_digits.induct program with
  | case1 pc hlt hc ih =>
      rw [scan_digits, dif_pos hlt, if_pos hc] at h
      have := ih h
      omega
  | case2 pc hlt hc =>
      rw [scan_digits, dif_pos hlt, if_neg hc] at h
      cases h
      omega
  | case3 pc hlt =>
      rw [scan_digits, dif_neg hlt] at h
      cases h

theorem read_number_ok_lt (program : List Char) (pc : Nat) (n q : Nat)
    (h : read_number program pc = .ok (n, q)) : pc < q := by
  unfold read_number at h
  split at h
  · cases h
  · rename_i stop hs
    have hle := scan_digits_ok_le program pc stop hs
    split at h
    · cases h
    · rename_i hstop
      cases h
      omega

/-- Every successful compile-pass iteration advances the cursor by at least
one byte, keeps the program text, and only ever appends to the dataspace. -/
theorem compileStep_ok_spec (s s' : CState) (h : compileStep s = .ok s') :
    s.pc < s'.pc ∧ s'.program = s.program ∧ ∃ t, s'.memory = s.memory ++ t := by
  unfold compileStep at h
  split at h
  · cases h
  · rename_i byte hb
    split_ifs at h with h1 h2 h3 h4 h5 h6 h7 h8
    · split at h
      · cases h
      · rename_i pc2 hec
        cases h
        have := eat_comment_ok_lt s.program (s.pc + 1) pc2 hec
        exact ⟨by dsimp only; omega, rfl, [], by simp⟩
    · split at h
      · cases h
      · rename_i wpc haw
        have hle := advance_past_whitespace_ok_le s.program (s.pc + 1) wpc haw
        split at h
        · cases h
        · rename_i name hn
          cases h
          exact ⟨by dsimp only; omega, rfl, [], by simp⟩
    · split at h
      · cases h
      · rename_i wpc haw
        have hle := advance_past_whitespace_ok_le s.program (s.pc + 1) wpc haw
        split at h
        · cases h
        · rename_i name hn
          cases h
          exact ⟨by dsimp only; omega, rfl, [], by simp⟩
    · split at h
      · cases h
      · rename_i wpc haw
        have hle := advance_past_whitespace_ok_le s.program (s.pc + 1) wpc haw
        split at h
        · cases h
        · rename_i n pc2 hrn
          cases h
          have := read_number_ok_lt s.program wpc n pc2 hrn
          exact ⟨by dsimp only; omega, rfl, [n], rfl⟩
    · split at h
      · cases h
      · rename_i wpc haw
        have hle := advance_past_whitespace_ok_le s.program (s.pc + 1) wpc haw
        split at h
        · cases h
        · rename_i n pc2 hrn
          cases h
          have := read_number_ok_lt s.program wpc n pc2 hrn
          exact ⟨by dsimp only; omega, rfl, as_bytes n, rfl⟩
    · cases h
      exact ⟨by dsimp only; omega, rfl, [], by simp⟩
    · cases h
      exact ⟨by dsimp only; omega, rfl, [], by simp⟩
    · cases h
      exact ⟨by dsimp only; omega, rfl, [], by simp⟩

/-- `tbfcompile`: run the compile pass to the end of the program text.  The
loop terminates because every successful step advances the cursor. -/
def tbfcompile (s : CState) : Except Err CState :=
  if hlt : s.pc < s.program.length then
    match hstep : compileStep s with
    | .error e => .error e
    | .ok s' => tbfcompile s'
  else .ok s
termination_by s.program.length - s.pc
decreasing_by
  have hspec := compileStep_ok_spec s s' hstep
  rw [hspec.2.1]
  omega

/-- Run-pass state: program text, execution cursor, dataspace, data stack,
return stack, remaining standard input and accumulated standard output. -/
structure RState where
  program : List Char
  pc : Nat
  memory : List Nat
  stack : List Nat
  rstack : List Nat
  input : List Nat
  output : List Nat
deriving DecidableEq, Repr

/-- Result of one dispatched action: keep running, or `sys.exit(0)` from `Q`. -/
inductive StepRes where
  | cont (s : RState)
  | halt (s : RState)
deriving DecidableEq, Repr

/-- `list.pop()` on a Python list (our head is the Python tail); popping an
empty list raises IndexError. -/
def pop (stk : List Nat) : Except Err (Nat × List Nat) :=
  match stk with
  | [] => .error .stackUnderflow
  | x :: rest => .ok (x, rest)

/-- Execute one run-time action on the state.  The cursor has already been
advanced past the dispatched byte. -/
def execAction (act : Action) (s : RState) : Except Err StepRes :=
  match act with
  | .nop => .ok (.cont s)
  | .eat_comment =>
    match eat_comment s.program s.pc with
    | .error e => .error e
    | .ok pc2 => .ok (.cont { s with pc := pc2 })
  | .push_literal =>
    match read_number s.program (s.pc - 1) with
    | .error e => .error e
    | .ok (n, pc2) => .ok (.cont { s with pc := pc2, stack := n :: s.stack })
  | .write_out =>
    match pop s.stack with
    | .error e => .error e
    | .ok (count, stk1) =>
      match pop stk1 with
      | .error e => .error e
      | .ok (address, stk2) =>
        match write_range s.memory address count with
        | .error e => .error e
        | .ok bytes => .ok (.cont { s with stack := stk2, output := s.output ++ bytes })
  | .read_byte =>
    match s.input with
    | [] => .error .inputExhausted
    | b :: rest => .ok (.cont { s with stack := b :: s.stack, input := rest })
  | .quit => .ok (.halt s)
  | .add =>
    match pop s.stack with
    | .error e => .error e
    | .ok (a, stk1) =>
      match pop stk1 with
      | .error e => .error e
      | .ok (b, stk2) => .ok (.cont { s with stack := (a + b) :: stk2 })
  | .bitwise_not =>
    match pop s.stack with
    | .error e => .error e
    | .ok (v, stk1) => .ok (.cont { s with stack := (v ^^^ 0xffffffff) :: stk1 })
  | .fetch =>
    match pop s.stack with
    | .error e => .error e
    | .ok (addr, stk1) =>
      match decode (pySliceNat s.memory addr (addr + 4)) with
      | .error e => .error e
      | .ok v => .ok (.cont { s with stack := v :: stk1 })
  | .store =>
    match pop s.stack with
    | .error e => .error e
    | .ok (addr, stk1) =>
      match pop stk1 with
      | .error e => .error e
      | .ok (v, stk2) =>
        .ok (.cont { s with
                       stack := stk2,
                       memory := s.memory.take addr ++ as_bytes v ++
                         s.memory.drop (addr + 4) })
  | .return_from =>
    match s.rstack with
    | [] => .error .stackUnderflow
    | r :: rest => .ok (.cont { s with pc := r, rstack := rest })
  | .pushLabel n => .ok (.cont { s with stack := n :: s.stack })
  | .callFunction n => .ok (.cont { s with rstack := s.pc :: s.rstack, pc := n })

/-- One iteration of the `tbfrun` loop: read the byte at the cursor, advance,
look it up in the run-time dispatch table (KeyError on a missing token), and
execute the action. -/
def runStep (table : List (Char × Action)) (s : RState) : Except Err StepRes :=
  match s.program[s.pc]? with
  | none => .error .indexError
  | some byte =>
    match table.lookup byte with
    | none => .error (.undefinedOpcode byte)
    | some act => execAction act { s with pc := s.pc + 1 }

/-- Observable outcome of the run pass, driven by a fuel bound since the
Python loop runs until `Q` exits or an exception kills the process. -/
inductive RunResult where
  | halted (out : List Nat)
  | failed (e : Err) (out : List Nat)
  | outOfFuel (s : RState)
deriving DecidableEq, Repr

/-- The `while True` loop of `tbfrun`, cut off by fuel. -/
def runLoop (table : List (Char × Action)) : Nat → RState → RunResult
  | 0, s => .outOfFuel s
  | fuel + 1, s =>
    match runStep table s with
    | .error e => .failed e s.output
    | .ok (.halt s') => .halted s'.output
    | .ok (.cont s') => runLoop table fuel s'

/-- `tbfrun`: `assert start_address is not None`, then interpret from the
entry offset with empty stacks. -/
def tbfrun (c : CState) (input : List Nat) (fuel : Nat) : RunResult :=
  match c.start_address with
  | none => .failed .entryNotSet []
  | some a =>
    runLoop c.run_time_dispatch fuel
      { program := c.program, pc := a, memory := c.memory,
        stack := [], rstack := [], input := input, output := [] }

/-- The pre-seeded `run_time_dispatch` dict: built-ins plus one
`push_literal` entry per ASCII digit. -/
def initial_dispatch : List (Char × Action) :=
  [('(', .eat_comment), ('W', .write_out), ('G', .read_byte), ('Q', .quit),
   ('+', .add), ('~', .bitwise_not), ('@', .fetch), ('!', .store),
   (';', .return_from), (' ', .nop), ('\n', .nop),
   ('0', .push_literal), ('1', .push_literal), ('2', .push_literal),
   ('3', .push_literal), ('4', .push_literal), ('5', .push_literal),
   ('6', .push_literal), ('7', .push_literal), ('8', .push_literal),
   ('9', .push_literal)]

/-- Process start: empty dataspace, unset entry offset, built-in table,
cursor at 0. -/
def initial_cstate (program : List Char) : CState :=
  { program := program, pc := 0, memory := [], start_address := none,
    run_time_dispatch := initial_dispatch }

/-- C4: for every 32-bit unsigned integer v (0 ≤ v < 2^32), encoding v with
the 4-byte little-endian encoder `as_bytes` and then decoding the resulting
bytes with `decode` yields v again, and the encoder always produces exactly
4 bytes. -/
theorem as_bytes_decode_round_trip (v : Nat) (hv : v < 2 ^ 32) :
    decode (as_bytes v) = .ok v ∧ (as_bytes v).length = 4 := by
  refine ⟨?_, rfl⟩
  show Except.ok ((v &&& 255) ||| (((v >>> 8) &&& 255) <<< 8) |||
    (((v >>> 16) &&& 255) <<< 16) ||| (((v >>> 24) &&& 255) <<< 24)) = Except.ok v
  congr 1
  have h255 : (255 : Nat) = 2 ^ 8 - 1 := by norm_num
  apply Nat.eq_of_testBit_eq
  intro i
  simp only [Nat.testBit_or, Nat.testBit_shiftLeft, Nat.testBit_and, Nat.testBit_shiftRight,
    h255, Nat.testBit_two_pow_sub_one]
  rcases Nat.lt_or_ge i 8 with h8 | h8
  · simp [show ¬(8 ≤ i) by omega, show ¬(16 ≤ i) by omega, show ¬(24 ≤ i) by omega, h8]
  rcases Nat.lt_or_ge i 16 with h16 | h16
  · have e : 8 + (i - 8) = i := by omega
    simp [show (8 ≤ i) by omega, show ¬(16 ≤ i) by omega, show ¬(24 ≤ i) by omega,
      show ¬(i < 8) by omega, show i - 8 < 8 by omega, e]
  rcases Nat.lt_or_ge i 24 with h24 | h24
  · have e : 16 + (i - 16) = i := by omega
    simp [show (8 ≤ i) by omega, show (16 ≤ i) by omega, show ¬(24 ≤ i) by omega,
      show ¬(i < 8) by omega, show ¬(i - 8 < 8) by omega, show i - 16 < 8 by omega, e]
  rcases Nat.lt_or_ge i 32 with h32 | h32
  · have e : 24 + (i - 24) = i := by omega
    simp [show (8 ≤ i) by omega, show (16 ≤ i) by omega, show (24 ≤ i) by omega,
      show ¬(i < 8) by omega, show ¬(i - 8 < 8) by omega, show ¬(i - 16 < 8) by omega,
      show i - 24 < 8 by omega, e]
  · have hv' : v < 2 ^ i := lt_of_lt_of_le hv (Nat.pow_le_pow_right (by norm_num) h32)
    simp [show ¬(i < 8) by omega, show ¬(i - 8 < 8) by omega, show ¬(i - 16 < 8) by omega,
      show ¬(i - 24 < 8) by omega, Nat.testBit_lt_two_pow hv']

/-- C4 witness at v = 305419896 = 0x12345678. -/
theorem as_bytes_decode_round_trip_witness :
    decode (as_bytes 305419896) = .ok 305419896 ∧ (as_bytes 305419896).length = 4 :=
  as_bytes_decode_round_trip 305419896 (by norm_num)

/-- C5: executing `~` on a stack whose top is v replaces v by
v XOR 0xffffffff, which flips exactly the low 32 bits and leaves every bit
from bit 32 up unchanged; executing `~` twice restores v (in particular its
low 32 bits). -/
theorem bitwise_not_flips_low_32 (s : RState) (v : Nat) (rest : List Nat)
    (h : s.stack = v :: rest) :
    execAction .bitwise_not s =
      .ok (.cont { s with stack := (v ^^^ 0xffffffff) :: rest }) ∧
    (∀ i, i < 32 → (v ^^^ 0xffffffff).testBit i = !(v.testBit i)) ∧
    (∀ i, 32 ≤ i → (v ^^^ 0xffffffff).testBit i = v.testBit i) ∧
    execAction .bitwise_not { s with stack := (v ^^^ 0xffffffff) :: rest } =
      .ok (.cont { s with stack := v :: rest }) := by
  have hmask : (0xffffffff : Nat) = 2 ^ 32 - 1 := by norm_num
  refine ⟨by simp [execAction, pop, h], ?_, ?_, ?_⟩
  · intro i hi
    rw [Nat.testBit_xor, hmask, Nat.testBit_two_pow_sub_one, decide_eq_true hi,
      Bool.xor_true]
  · intro i hi
    rw [Nat.testBit_xor, hmask, Nat.testBit_two_pow_sub_one,
      decide_eq_false (by omega : ¬(i < 32)), Bool.xor_false]
  · have hx : (v ^^^ 0xffffffff) ^^^ 0xffffffff = v := by
      rw [Nat.xor_assoc, Nat.xor_self, Nat.xor_zero]
    simp [execAction, pop, hx]

/-- C5 witness at v = 5 on a singleton stack. -/
theorem bitwise_not_flips_low_32_witness :
    execAction .bitwise_not ⟨[], 0, [], [5], [], [], []⟩ =
      .ok (.cont ⟨[], 0, [], [5 ^^^ 0xffffffff], [], [], []⟩) ∧
    (5 ^^^ 0xffffffff : Nat).testBit 0 = !((5 : Nat).testBit 0) :=
  ⟨(bitwise_not_flips_low_32 ⟨[], 0, [], [5], [], [], []⟩ 5 [] rfl).1,
   (bitwise_not_flips_low_32 ⟨[], 0, [], [5], [], [], []⟩ 5 [] rfl).2.1 0 (by norm_num)⟩

/-- C6: compiling a `v` construct registers, under the name read after the
whitespace, an action carrying the dataspace length captured at the moment of
definition (0 before any literals, N after N appended bytes), and executing
that action on any later state pushes exactly that captured length, no matter
how the dataspace has grown since. -/
theorem dataspace_label_captures_here (s s' : CState)
    (hb : s.program[s.pc]? = some 'v')
    (h : compileStep s = .ok s') :
    ∃ name,
      s'.run_time_dispatch =
        (name, Action.pushLabel s.memory.length) :: s.run_time_dispatch ∧
      s'.memory = s.memory ∧
      ∀ t : RState, execAction (Action.pushLabel s.memory.length) t =
        .ok (.cont { t with stack := s.memory.length :: t.stack }) := by
  unfold compileStep at h
  split at h
  · cases h
  · rename_i byte hb2
    rw [hb] at hb2
    injection hb2 with hv
    subst hv
    rw [if_neg (by decide : ¬('v' : Char) = '('), if_pos rfl] at h
    split at h
    · cases h
    · rename_i wpc haw
      split at h
      · cases h
      · rename_i name hn
        cases h
        exact ⟨name, rfl, rfl, fun t => rfl⟩

/-- C6 witness: `v x` with two dataspace bytes already appended registers
`x` as an action pushing 2. -/
theorem dataspace_label_captures_here_witness :
    ∃ name,
      [('x', Action.pushLabel 2)] = [(name, Action.pushLabel 2)] ∧
      ([9, 9] : List Nat) = [9, 9] ∧
      ∀ t : RState, execAction (Action.pushLabel 2) t =
        .ok (.cont { t with stack := 2 :: t.stack }) :=
  dataspace_label_captures_here ⟨['v', 'x'], 0, [9, 9], none, []⟩
    ⟨['v', 'x'], 2, [9, 9], none, [('x', Action.pushLabel 2)]⟩ rfl
    (by simp [compileStep, advance_past_whitespace])

/-- Helper: no compile-time construct other than `^` touches the entry
offset. -/
theorem compileStep_start_invariant (s s' : CState)
    (h : compileStep s = .ok s') (hne : s.program[s.pc]? ≠ some '^') :
    s'.start_address = s.start_address := by
  unfold compileStep at h
  split at h
  · cases h
  · rename_i byte hb2
    split_ifs at h with h1 h2 h3 h4 h5 h6 h7 h8
    · split at h
      · cases h
      · cases h; rfl
    · split at h
      · cases h
      · split at h
        · cases h
        · cases h; rfl
    · split at h
      · cases h
      · split at h
        · cases h
        · cases h; rfl
    · split at h
      · cases h
      · split at h
        · cases h
        · cases h; rfl
    · split at h
      · cases h
      · split at h
        · cases h
        · cases h; rfl
    · exact absurd (h6 ▸ hb2) hne
    · cases h; rfl
    · cases h; rfl

/-- Helper: a whole compile pass over a text with no `^` byte leaves the
entry offset untouched. -/
theorem tbfcompile_start_invariant :
    ∀ s s' : CState, tbfcompile s = .ok s' → '^' ∉ s.program →
      s'.start_address = s.start_address := by
  intro s
  induction s using tbfcompile.induct with
  | case1 x hlt e hstep =>
      intro s' h hne
      rw [tbfcompile, dif_pos hlt] at h
      split at h
      · cases h
      · rename_i s3 hstep2
        rw [hstep] at hstep2
        cases hstep2
  | case2 x hlt s3 hstep ih =>
      intro s' h hne
      rw [tbfcompile, dif_pos hlt] at h
      split at h
      · rename_i e hstep2
        rw [hstep] at hstep2
        cases hstep2
      · rename_i s4 hstep2
        rw [hstep] at hstep2
        injection hstep2 with he
        subst he
        have hprog := (compileStep_ok_spec x s3 hstep).2.1
        have hb : x.program[x.pc]? ≠ some '^' :=
          fun hcon => hne (List.getElem?_mem hcon)
        have h1 := compileStep_start_invariant x s3 hstep hb
        have h2 := ih s' h (by rw [hprog]; exact hne)
        rw [h2, h1]
  | case3 x hlt =>
      intro s' h hne
      rw [tbfcompile, dif_neg hlt] at h
      cases h
      rfl

/-- C7: the run pass requires an entry offset: with `start_address` unset it
fails with `entryNotSet` before executing anything (no output, no steps), and
in particular a program text containing no `^` at all compiles to a state on
which the run pass fails that way; a `^` during compilation overwrites any
previously recorded entry offset with the cursor position after the `^`, no
other construct touches it, and with `start_address` set the run pass starts
interpreting exactly at that offset with empty stacks. -/
theorem entry_offset_semantics :
    (∀ (c : CState) (input : List Nat) (fuel : Nat),
      c.start_address = none → tbfrun c input fuel = .failed .entryNotSet []) ∧
    (∀ s s' : CState, s.program[s.pc]? = some '^' → compileStep s = .ok s' →
      s' = { s with pc := s.pc + 1, start_address := some (s.pc + 1) }) ∧
    (∀ s s' : CState, compileStep s = .ok s' → s.program[s.pc]? ≠ some '^' →
      s'.start_address = s.start_address) ∧
    (∀ (c : CState) (input : List Nat) (fuel : Nat) (a : Nat),
      c.start_address = some a →
      tbfrun c input fuel = runLoop c.run_time_dispatch fuel
        { program := c.program, pc := a, memory := c.memory,
          stack := [], rstack := [], input := input, output := [] }) ∧
    (∀ (program : List Char) (c : CState) (input : List Nat) (fuel : Nat),
      tbfcompile (initial_cstate program) = .ok c → '^' ∉ program →
      tbfrun c input fuel = .failed .entryNotSet []) := by
  refine ⟨?_, ?_, ?_, ?_, ?_⟩
  · intro c input fuel h
    simp [tbfrun, h]
  · intro s s' hb h
    unfold compileStep at h
    split at h
    · cases h
    · rename_i byte hb2
      rw [hb] at hb2
      injection hb2 with hv
      subst hv
      rw [if_neg (by decide : ¬('^' : Char) = '('), if_neg (by decide : ¬('^' : Char) = 'v'),
        if_neg (by decide : ¬('^' : Char) = ':'), if_neg (by decide : ¬('^' : Char) = 'b'),
        if_neg (by decide : ¬('^' : Char) = '#'), if_pos rfl] at h
      cases h
      rfl
  · intro s s' h hne
    exact compileStep_start_invariant s s' h hne
  · intro c input fuel a h
    simp [tbfrun, h]
  · intro program c input fuel hc hne
    have hstart := tbfcompile_start_invariant (initial_cstate program) c hc hne
    simp [tbfrun, hstart, initial_cstate]

/-- C7 witness: a one-byte program `^`: no entry set fails, and compiling the
`^` sets the entry offset to 1 whatever it was before. -/
theorem entry_offset_semantics_witness :
    tbfrun ⟨['^'], 1, [], none, []⟩ [] 5 = .failed .entryNotSet [] ∧
    (⟨['^'], 1, [], some 1, []⟩ : CState) =
      { (⟨['^'], 0, [], some 0, []⟩ : CState) with pc := 1, start_address := some 1 } ∧
    tbfrun ⟨['+'], 1, [], none, initial_dispatch⟩ [] 3 = .failed .entryNotSet [] :=
  ⟨entry_offset_semantics.1 ⟨['^'], 1, [], none, []⟩ [] 5 rfl,
   entry_offset_semantics.2.1 ⟨['^'], 0, [], some 0, []⟩ ⟨['^'], 1, [], some 1, []⟩ rfl rfl,
   entry_offset_semantics.2.2.2.2 ['+'] ⟨['+'], 1, [], none, initial_dispatch⟩ [] 3
     (by
       rw [tbfcompile, dif_pos (by decide)]
       show tbfcompile ⟨['+'], 1, [], none, initial_dispatch⟩ =
         .ok ⟨['+'], 1, [], none, initial_dispatch⟩
       rw [tbfcompile, dif_neg (by decide)])
     (by decide)⟩

/-- C9: every successful iteration of the compile scanner strictly increases
the program counter on the unchanged program text, and a completed compile
pass has consumed the whole text: `tbfcompile` can only return successfully
with the cursor at or past the end, so the pass reaches the end of the
program text or aborts with an error, never looping forever. -/
theorem compile_pass_terminates :
    (∀ s s' : CState, compileStep s = .ok s' →
      s.pc < s'.pc ∧ s'.program = s.program) ∧
    (∀ s s' : CState, tbfcompile s = .ok s' → s'.program.length ≤ s'.pc) := by
  constructor
  · intro s s' h
    exact ⟨(compileStep_ok_spec s s' h).1, (compileStep_ok_spec s s' h).2.1⟩
  · intro s
    induction s using tbfcompile.induct with
    | case1 x hlt e hstep =>
        intro s2 h
        rw [tbfcompile, dif_pos hlt] at h
        split at h
        · cases h
        · rename_i s3 hstep2
          rw [hstep] at hstep2
          cases hstep2
    | case2 x hlt s3 hstep ih =>
        intro s2 h
        rw [tbfcompile, dif_pos hlt] at h
        split at h
        · rename_i e hstep2
          rw [hstep] at hstep2
          cases hstep2
        · rename_i s4 hstep2
          rw [hstep] at hstep2
          injection hstep2 with he
          subst he
          exact ih s2 h
    | case3 x hlt =>
        intro s2 h
        rw [tbfcompile, dif_neg hlt] at h
        cases h
        omega

/-- C9 witness: one step on a one-byte program advances the cursor; the
finished pass stands at the end. -/
theorem compile_pass_terminates_witness :
    ((⟨[' '], 0, [], none, []⟩ : CState).pc < (⟨[' '], 1, [], none, []⟩ : CState).pc ∧
      (⟨[' '], 1, [], none, []⟩ : CState).program = [' ']) ∧
    (⟨[' '], 1, [], none, []⟩ : CState).program.length ≤
      (⟨[' '], 1, [], none, []⟩ : CState).pc :=
  ⟨compile_pass_terminates.1 ⟨[' '], 0, [], none, []⟩ ⟨[' '], 1, [], none, []⟩ rfl,
   compile_pass_terminates.2 ⟨[' '], 1, [], none, []⟩ ⟨[' '], 1, [], none, []⟩
     (by simp [tbfcompile])⟩

/-- Helper shared by the comment claims: with no `)` at or after the cursor,
the comment skip runs the cursor past the end of the text and dies with the
IndexError. -/
theorem eat_comment_no_close (program : List Char) (pc : Nat)
    (h : ')' ∉ program.drop pc) : eat_comment program pc = .error .indexError := by
  induction pc using eat_comment.induct program with
  | case1 pc hlt hc =>
      exfalso
      apply h
      rw [List.drop_eq_getElem_cons hlt, hc]
      exact List.mem_cons_self ')' _
  | case2 pc hlt hc ih =>
      rw [eat_comment, dif_pos hlt, if_neg hc]
      apply ih
      intro hmem
      exact h (by rw [List.drop_eq_getElem_cons hlt]; exact List.mem_cons_of_mem _ hmem)
  | case3 pc hlt =>
      rw [eat_comment, dif_neg hlt]

/-- C10: a `(` with no `)` anywhere in the rest of the program text is fatal
in both passes: the comment skip itself, the compile-pass dispatch of `(`,
and the run-pass dispatch of `(` all end in the out-of-text IndexError; the
comment is never silently treated as extending to end-of-input. -/
theorem unterminated_comment_fatal :
    (∀ (program : List Char) (pc : Nat), ')' ∉ program.drop pc →
      eat_comment program pc = .error .indexError) ∧
    (∀ s : CState, s.program[s.pc]? = some '(' → ')' ∉ s.program.drop (s.pc + 1) →
      compileStep s = .error .indexError) ∧
    (∀ s : RState, ')' ∉ s.program.drop s.pc →
      execAction .eat_comment s = .error .indexError) := by
  refine ⟨fun program pc h => eat_comment_no_close program pc h, ?_, ?_⟩
  · intro s hb h2
    simp only [compileStep, hb]
    rw [if_true, eat_comment_no_close s.program (s.pc + 1) h2]
  · intro s h2
    simp only [execAction]
    rw [eat_comment_no_close s.program s.pc h2]

/-- C10 witness: the program `(x` with the comment opened at offset 0. -/
theorem unterminated_comment_fatal_witness :
    eat_comment ['(', 'x'] 1 = .error .indexError ∧
    compileStep ⟨['(', 'x'], 0, [], none, []⟩ = .error .indexError ∧
    execAction .eat_comment ⟨['(', 'x'], 1, [], [], [], [], []⟩ = .error .indexError :=
  ⟨unterminated_comment_fatal.1 ['(', 'x'] 1 (by decide),
   unterminated_comment_fatal.2.1 ⟨['(', 'x'], 0, [], none, []⟩ rfl (by decide),
   unterminated_comment_fatal.2.2 ⟨['(', 'x'], 1, [], [], [], [], []⟩ (by decide)⟩

/-- Helper: `decode` of a slice holding fewer than 4 bytes dies with the
IndexError of `bytes[0] | bytes[1]<<8 | ...`. -/
theorem decode_short (bs : List Nat) (h : bs.length < 4) :
    decode bs = .error .memoryIndexError := by
  rcases bs with _ | ⟨a, bs⟩
  · rfl
  rcases bs with _ | ⟨b, bs⟩
  · rfl
  rcases bs with _ | ⟨c, bs⟩
  · rfl
  rcases bs with _ | ⟨d, bs⟩
  · rfl
  · simp at h
    omega

/-- Helper: the write-out comprehension dies (IndexError, or ValueError on a
non-byte cell met first) whenever the requested range runs past the end of
memory and is non-empty. -/
theorem write_range_overrun (memory : List Nat) (count : Nat) :
    ∀ address, 1 ≤ count → memory.length < address + count →
      ∃ e, write_range memory address count = .error e := by
  induction count with
  | zero => intro address hc; omega
  | succ c ih =>
      intro address _ hover
      cases hm : memory[address]? with
      | none => exact ⟨.memoryIndexError, by simp [write_range, hm]⟩
      | some b =>
          have haddr : address < memory.length := (List.getElem?_eq_some.mp hm).1
          by_cases hb : b < 256
          · obtain ⟨e, he⟩ := ih (address + 1) (by omega) (by omega)
            exact ⟨e, by simp [write_range, hm, hb, he]⟩
          · exact ⟨.valueError, by simp [write_range, hm, hb]⟩

/-- C1 (amended): with the non-negative addresses that actually occur on the
stack, `@` fails fatally whenever address+4 reaches past the dataspace
(the 4-byte slice comes up short and decoding it raises), and `W` fails
fatally whenever its non-empty range reaches past the dataspace; but `!`
never performs a bounds check at all: for every address and value it
completes normally, with Python slice assignment rewriting (and, past the
extent, growing) the dataspace.  A `W` whose count is 0 also completes
normally whatever its address. -/
theorem out_of_range_access_behavior :
    (∀ (s : RState) (addr : Nat) (rest : List Nat),
      s.stack = addr :: rest → s.memory.length < addr + 4 →
      execAction .fetch s = .error .memoryIndexError) ∧
    (∀ (s : RState) (addr count : Nat) (rest : List Nat),
      s.stack = count :: addr :: rest → 1 ≤ count → s.memory.length < addr + count →
      ∃ e, execAction .write_out s = .error e) ∧
    (∀ (s : RState) (addr v : Nat) (rest : List Nat),
      s.stack = addr :: v :: rest →
      execAction .store s = .ok (.cont { s with
        stack := rest,
        memory := s.memory.take addr ++ as_bytes v ++ s.memory.drop (addr + 4) })) := by
  refine ⟨?_, ?_, ?_⟩
  · intro s addr rest hstack hover
    have hlen : (pySliceNat s.memory addr (addr + 4)).length < 4 := by
      simp [pySliceNat]
      omega
    simp [execAction, pop, hstack, decode_short _ hlen]
  · intro s addr count rest hstack hc hover
    obtain ⟨e, he⟩ := write_range_overrun s.memory count addr hc hover
    exact ⟨e, by simp [execAction, pop, hstack, he]⟩
  · intro s addr v rest hstack
    simp [execAction, pop, hstack]

/-- C1 counterexample: on an empty dataspace, `!` at address 0 (range 0..4
entirely beyond the extent) completes normally and leaves 4 bytes behind, and
`W` with count 0 at address 5 completes normally; the claim says both must
fail fatally. -/
theorem store_out_of_range_completes :
    execAction .store ⟨[], 0, [], [0, 5], [], [], []⟩ =
      .ok (.cont ⟨[], 0, [5, 0, 0, 0], [], [], [], []⟩) ∧
    ([] : List Nat).length < 0 + 4 ∧
    execAction .write_out ⟨[], 0, [], [0, 5], [], [], []⟩ =
      .ok (.cont ⟨[], 0, [], [], [], [], []⟩) ∧
    ([] : List Nat).length < 5 + 0 :=
  ⟨rfl, by decide, rfl, by decide⟩

/-- C1 witness: fetch and a non-empty write past the end of a 2-byte
dataspace fail; an in-range store completes with the slice rewritten. -/
theorem out_of_range_access_behavior_witness :
    execAction .fetch ⟨[], 0, [1, 2], [1], [], [], []⟩ = .error .memoryIndexError ∧
    (∃ e, execAction .write_out ⟨[], 0, [1, 2], [2, 1], [], [], []⟩ = .error e) ∧
    execAction .store ⟨[], 0, [1, 2], [0, 7], [], [], []⟩ =
      .ok (.cont { (⟨[], 0, [1, 2], [0, 7], [], [], []⟩ : RState) with
        stack := [],
        memory := ([1, 2] : List Nat).take 0 ++ as_bytes 7 ++ ([1, 2] : List Nat).drop 4 }) :=
  ⟨out_of_range_access_behavior.1 ⟨[], 0, [1, 2], [1], [], [], []⟩ 1 [] rfl (by decide),
   out_of_range_access_behavior.2.1 ⟨[], 0, [1, 2], [2, 1], [], [], []⟩ 1 2 [] rfl
     (by decide) (by decide),
   out_of_range_access_behavior.2.2 ⟨[], 0, [1, 2], [0, 7], [], [], []⟩ 0 7 [] rfl⟩

/-- C2 (amended): the compile pass only ever appends to the dataspace, so
every compile-time address keeps denoting the same byte; but the run pass
can change the dataspace length: `!` preserves the length only when its
4-byte range lies inside the current extent, while a store past the extent
grows the dataspace (see the counterexample). -/
theorem dataspace_growth_discipline :
    (∀ s s' : CState, compileStep s = .ok s' →
      ∃ t, s'.memory = s.memory ++ t ∧
        ∀ i, i < s.memory.length → s'.memory[i]? = s.memory[i]?) ∧
    (∀ (s : RState) (addr v : Nat) (rest : List Nat),
      s.stack = addr :: v :: rest → addr + 4 ≤ s.memory.length →
      ∃ s', execAction .store s = .ok (.cont s') ∧
        s'.memory.length = s.memory.length) := by
  constructor
  · intro s s' h
    obtain ⟨t, ht⟩ := (compileStep_ok_spec s s' h).2.2
    refine ⟨t, ht, fun i hi => ?_⟩
    rw [ht, List.getElem?_append_left hi]
  · intro s addr v rest hstack hin
    refine ⟨{ s with
        stack := rest,
        memory := s.memory.take addr ++ as_bytes v ++ s.memory.drop (addr + 4) },
      by simp [execAction, pop, hstack], ?_⟩
    simp [as_bytes]
    omega

/-- C2 counterexample: a run-pass `!` at address 0 on the 2-byte dataspace
[1, 2] turns it into [7, 0, 0, 0]: the length changes during the run pass
and the result is not an extension-by-appending of [1, 2]. -/
theorem run_store_changes_length :
    execAction .store ⟨[], 0, [1, 2], [0, 7], [], [], []⟩ =
      .ok (.cont ⟨[], 0, [7, 0, 0, 0], [], [], [], []⟩) ∧
    ([7, 0, 0, 0] : List Nat).length ≠ ([1, 2] : List Nat).length ∧
    ¬∃ t, ([7, 0, 0, 0] : List Nat) = [1, 2] ++ t := by
  refine ⟨rfl, by decide, ?_⟩
  rintro ⟨t, ht⟩
  simp at ht

/-- C2 witness: after the compile step for `b 7 `, the old dataspace [5] is a
prefix of the new one and the old address 0 still holds 5; an in-range store
on an 8-byte dataspace keeps its length 8. -/
theorem dataspace_growth_discipline_witness :
    (∃ t, (⟨['b', ' ', '7', ' '], 3, [5, 7], none, []⟩ : CState).memory = [5] ++ t ∧
      ∀ i, i < ([5] : List Nat).length →
        (⟨['b', ' ', '7', ' '], 3, [5, 7], none, []⟩ : CState).memory[i]? =
          ([5] : List Nat)[i]?) ∧
    (∃ s', execAction .store ⟨[], 0, [1, 2, 3, 4, 5, 6, 7, 8], [2, 9], [], [], []⟩ =
      .ok (.cont s') ∧
      s'.memory.length = ([1, 2, 3, 4, 5, 6, 7, 8] : List Nat).length) :=
  ⟨dataspace_growth_discipline.1 ⟨['b', ' ', '7', ' '], 0, [5], none, []⟩
      ⟨['b', ' ', '7', ' '], 3, [5, 7], none, []⟩
      (by simp [compileStep, advance_past_whitespace, scan_digits, read_number,
        pySliceNat, string_to_int]),
   dataspace_growth_discipline.2 ⟨[], 0, [1, 2, 3, 4, 5, 6, 7, 8], [2, 9], [], [], []⟩
      2 9 [] rfl (by decide)⟩

/-- C3 (amended): compiling `b` followed by a decimal literal appends exactly
one element to the dataspace, whose value is the parsed literal itself —
with no truncation or range check, so the appended element is a byte value
only when the literal is at most 255 (see the counterexample for 300). -/
theorem literal_byte_appends_parsed_value (s s' : CState) (wpc n pc2 : Nat)
    (hb : s.program[s.pc]? = some 'b')
    (haw : advance_past_whitespace s.program (s.pc + 1) = .ok wpc)
    (hrn : read_number s.program wpc = .ok (n, pc2))
    (h : compileStep s = .ok s') :
    s'.memory = s.memory ++ [n] ∧ s'.memory.length = s.memory.length + 1 := by
  unfold compileStep at h
  split at h
  · cases h
  · rename_i byte hb2
    rw [hb] at hb2
    injection hb2 with hv
    subst hv
    rw [if_neg (by decide : ¬('b' : Char) = '('), if_neg (by decide : ¬('b' : Char) = 'v'),
      if_neg (by decide : ¬('b' : Char) = ':'), if_pos rfl] at h
    split at h
    · rename_i e haw2
      rw [haw] at haw2
      cases haw2
    · rename_i wpc2 haw2
      rw [haw] at haw2
      injection haw2 with hw
      subst hw
      split at h
      · rename_i e hrn2
        rw [hrn] at hrn2
        cases hrn2
      · rename_i n2 pc22 hrn2
        rw [hrn] at hrn2
        injection hrn2 with hp
        injection hp with hn hpc
        subst hn
        cases h
        exact ⟨rfl, by simp⟩

/-- C3 counterexample: compiling `b 300 ` appends the single element 300 to
the dataspace — the length grows by exactly 1, but the appended element is
not a byte value in 0..255. -/
theorem literal_byte_exceeds_byte_range :
    compileStep ⟨['b', ' ', '3', '0', '0', ' '], 0, [], none, initial_dispatch⟩ =
      .ok ⟨['b', ' ', '3', '0', '0', ' '], 5, [300], none, initial_dispatch⟩ ∧
    ¬(300 ≤ 255) := by
  refine ⟨?_, by decide⟩
  simp [compileStep, advance_past_whitespace, scan_digits, read_number, pySliceNat,
    string_to_int]

/-- C3 witness: the amended theorem applied to the compile step of `b 300 `
starting from an empty dataspace. -/
theorem literal_byte_appends_parsed_value_witness :
    (⟨['b', ' ', '3', '0', '0', ' '], 5, [300], none, initial_dispatch⟩ : CState).memory =
      ([] : List Nat) ++ [300] ∧
    (⟨['b', ' ', '3', '0', '0', ' '], 5, [300], none, initial_dispatch⟩ : CState).memory.length =
      ([] : List Nat).length + 1 :=
  literal_byte_appends_parsed_value
    ⟨['b', ' ', '3', '0', '0', ' '], 0, [], none, initial_dispatch⟩
    ⟨['b', ' ', '3', '0', '0', ' '], 5, [300], none, initial_dispatch⟩ 2 300 5 rfl
    (by simp [advance_past_whitespace])
    (by simp [read_number, scan_digits, pySliceNat, string_to_int])
    (by simp [compileStep, advance_past_whitespace, scan_digits, read_number, pySliceNat,
      string_to_int])

/-- Written from the claim's words, for comparison with the code: the excerpt
of up to 10 bytes strictly preceding the offending token at position `pos`. -/
def claimed_preceding_excerpt (program : List Char) (pos : Nat) : List Char :=
  pySliceNat program (pos - 10) pos

/-- C8 (amended): a byte that is neither a compile-time construct nor a key
of the run-time table makes the compile pass fail fatally, reporting the
token together with an excerpt of up to 10 bytes that ends with (and
includes) the offending token — the token preceded by at most 9 bytes of
context; a byte that is a run-time key is skipped silently. -/
theorem undefined_token_reporting (s : CState) (byte : Char)
    (hb : s.program[s.pc]? = some byte)
    (hnot : byte ∉ (['(', 'v', ':', 'b', '#', '^', ' ', '\n'] : List Char)) :
    ((s.run_time_dispatch.lookup byte).isSome →
      compileStep s = .ok { s with pc := s.pc + 1 }) ∧
    (s.run_time_dispatch.lookup byte = none →
      compileStep s = .error (.undefinedToken byte
        (pySliceNat s.program (s.pc + 1 - 10) (s.pc + 1))) ∧
      pySliceNat s.program (s.pc + 1 - 10) (s.pc + 1) =
        pySliceNat s.program (s.pc + 1 - 10) s.pc ++ [byte]) := by
  have h1 : ¬ byte = '(' := fun e => hnot (by rw [e]; exact List.Mem.head _)
  have h2 : ¬ byte = 'v' := fun e => hnot (by rw [e]; decide)
  have h3 : ¬ byte = ':' := fun e => hnot (by rw [e]; decide)
  have h4 : ¬ byte = 'b' := fun e => hnot (by rw [e]; decide)
  have h5 : ¬ byte = '#' := fun e => hnot (by rw [e]; decide)
  have h6 : ¬ byte = '^' := fun e => hnot (by rw [e]; decide)
  have h7 : ¬ (byte = ' ' ∨ byte = '\n') := by
    rintro (e | e) <;> exact hnot (by rw [e]; decide)
  constructor
  · intro hsome
    simp only [compileStep, hb]
    rw [if_neg h1, if_neg h2, if_neg h3, if_neg h4, if_neg h5, if_neg h6, if_neg h7,
      if_pos hsome]
  · intro hnone
    have hdead : ¬ (s.run_time_dispatch.lookup byte).isSome = true := by
      simp [hnone]
    constructor
    · simp only [compileStep, hb]
      rw [if_neg h1, if_neg h2, if_neg h3, if_neg h4, if_neg h5, if_neg h6, if_neg h7,
        if_neg hdead]
    · have hpc : s.pc < s.program.length := (List.getElem?_eq_some.mp hb).1
      have ha : s.pc + 1 - 10 ≤ s.pc := by omega
      unfold pySliceNat
      have hsplit : s.pc + 1 - (s.pc + 1 - 10) = (s.pc - (s.pc + 1 - 10)) + 1 := by omega
      rw [hsplit, List.take_succ]
      congr 1
      rw [List.getElem?_drop]
      have : s.pc + 1 - 10 + (s.pc - (s.pc + 1 - 10)) = s.pc := by omega
      rw [this, hb]
      rfl

/-- C8 counterexample: for the program `0123456789$` the unknown token `$` at
offset 10 is reported with the excerpt `123456789$`, which contains the
token itself and differs from the 10 bytes `0123456789` preceding it that
the claim describes. -/
theorem undefined_token_excerpt_includes_token :
    compileStep ⟨['0', '1', '2', '3', '4', '5', '6', '7', '8', '9', '$'], 10, [], none,
        initial_dispatch⟩ =
      .error (.undefinedToken '$' ['1', '2', '3', '4', '5', '6', '7', '8', '9', '$']) ∧
    ['1', '2', '3', '4', '5', '6', '7', '8', '9', '$'] ≠
      claimed_preceding_excerpt ['0', '1', '2', '3', '4', '5', '6', '7', '8', '9', '$'] 10 :=
  ⟨rfl, by decide⟩

/-- C8 witness: the unknown byte `$` with one byte of context is fatal with
the excerpt `x$`, while the known run-time byte `+` is skipped silently. -/
theorem undefined_token_reporting_witness :
    compileStep ⟨['x', '$'], 1, [], none, initial_dispatch⟩ =
      .error (.undefinedToken '$' (pySliceNat ['x', '$'] 0 2)) ∧
    pySliceNat ['x', '$'] 0 2 = pySliceNat ['x', '$'] 0 1 ++ ['$'] ∧
    compileStep ⟨['+'], 0, [], none, initial_dispatch⟩ =
      .ok { (⟨['+'], 0, [], none, initial_dispatch⟩ : CState) with pc := 1 } :=
  ⟨((undefined_token_reporting ⟨['x', '$'], 1, [], none, initial_dispatch⟩ '$' rfl
      (by decide)).2 rfl).1,
   ((undefined_token_reporting ⟨['x', '$'], 1, [], none, initial_dispatch⟩ '$' rfl
      (by decide)).2 rfl).2,
   (undefined_token_reporting ⟨['+'], 0, [], none, initial_dispatch⟩ '+' rfl
      (by decide)).1 rfl⟩

end Tinyboot
